import Mathlib

/-!
Verification development for the Dictionary App repository.

The core under study is the request-caching and offline-fallback layer:

* `CacheManager` (src/app.js, lines 82-127): an in-memory expiring cache
  backed by a JavaScript `Map`, consulted and populated by
  `APIService.fetchWord` (lines 138-166);
* the service-worker layer (service worker source): `cacheFirstStrategy`,
  `networkFirstStrategy`, and the install/activate lifecycle.

JavaScript `Map` iteration order is insertion order, and `Map.set` on an
existing key updates the value in place without moving the key; we embed a
`Map` as an association list (`List (String × _)`) in insertion order and
give `alistGet` / `alistSet` / `alistDelete` exactly those semantics.
Clocks (`Date.now()`) are passed explicitly as `Nat` timestamps; the
network is an explicit oracle argument.
-/

namespace DictApp

/-- A JavaScript value, as far as the cache layer observes it: the cache
stores decoded JSON payloads opaquely, and `fetchWord` only ever tests
their truthiness. -/
inductive JSValue where
  | null
  | undefined
  | bool (b : Bool)
  | num (n : Int)
  | str (s : String)
  | arr (elems : List JSValue)
  | obj (fields : List (String × JSValue))

/-- JavaScript truthiness: `null`, `undefined`, `false`, `0` and the empty
string are falsy; every array and object is truthy. -/
def truthy : JSValue → Bool
  | .null => false
  | .undefined => false
  | .bool b => b
  | .num n => n != 0
  | .str s => !s.isEmpty
  | .arr _ => true
  | .obj _ => true

/-! ### JavaScript `Map` semantics on association lists -/

/-- `Map.prototype.get`: first (and, for reachable maps, only) binding. -/
def alistGet {α : Type} : List (String × α) → String → Option α
  | [], _ => none
  | (k0, v0) :: rest, k => if k0 = k then some v0 else alistGet rest k

/-- `Map.prototype.set`: update in place when the key is present (the key
keeps its position in iteration order), otherwise append at the end. -/
def alistSet {α : Type} : List (String × α) → String → α → List (String × α)
  | [], k, v => [(k, v)]
  | (k0, v0) :: rest, k, v =>
    if k0 = k then (k0, v) :: rest else (k0, v0) :: alistSet rest k v

/-- `Map.prototype.delete`: remove the binding for the key, if any. -/
def alistDelete {α : Type} : List (String × α) → String → List (String × α)
  | [], _ => []
  | (k0, v0) :: rest, k =>
    if k0 = k then rest else (k0, v0) :: alistDelete rest k

theorem alistGet_alistSet_self {α : Type} (c : List (String × α)) (k : String) (v : α) :
    alistGet (alistSet c k v) k = some v := by
  induction c with
  | nil => simp [alistSet, alistGet]
  | cons hd tl ih =>
    obtain ⟨k0, v0⟩ := hd
    by_cases h : k0 = k <;> simp [alistSet, alistGet, h, ih]

theorem alistGet_alistSet_ne {α : Type} (c : List (String × α)) (k k' : String) (v : α)
    (h : k' ≠ k) : alistGet (alistSet c k v) k' = alistGet c k' := by
  have hne : k ≠ k' := fun h2 => h h2.symm
  induction c with
  | nil => simp [alistSet, alistGet, hne]
  | cons hd tl ih =>
    obtain ⟨k0, v0⟩ := hd
    by_cases h0 : k0 = k
    · subst h0
      simp [alistSet, alistGet, hne]
    · simp only [alistSet, if_neg h0, alistGet]
      by_cases h1 : k0 = k' <;> simp [h1, ih]

theorem alistSet_length_le {α : Type} (c : List (String × α)) (k : String) (v : α) :
    (alistSet c k v).length ≤ c.length + 1 := by
  induction c with
  | nil => simp [alistSet]
  | cons hd tl ih =>
    obtain ⟨k0, v0⟩ := hd
    by_cases h : k0 = k <;> simp [alistSet, h] <;> omega

theorem alistDelete_length_le {α : Type} (c : List (String × α)) (k : String) :
    (alistDelete c k).length ≤ c.length := by
  induction c with
  | nil => simp [alistDelete]
  | cons hd tl ih =>
    obtain ⟨k0, v0⟩ := hd
    by_cases h : k0 = k <;> simp [alistDelete, h] <;> omega

theorem alistSet_of_absent {α : Type} (c : List (String × α)) (k : String) (v : α)
    (h : alistGet c k = none) : alistSet c k v = c ++ [(k, v)] := by
  induction c with
  | nil => simp [alistSet]
  | cons hd tl ih =>
    obtain ⟨k0, v0⟩ := hd
    by_cases h0 : k0 = k
    · simp [alistGet, h0] at h
    · simp only [alistGet, if_neg h0] at h
      simp [alistSet, h0, ih h]

theorem alistSet_keeps_keys {α : Type} (c : List (String × α)) (k : String) (v : α)
    (h : (alistGet c k).isSome) : (alistSet c k v).map Prod.fst = c.map Prod.fst := by
  induction c with
  | nil => simp [alistGet] at h
  | cons hd tl ih =>
    obtain ⟨k0, v0⟩ := hd
    by_cases h0 : k0 = k
    · simp [alistSet, h0]
    · simp only [alistGet, if_neg h0] at h
      simp [alistSet, h0, ih h]

/-- A present key splits the list at its first occurrence; `alistDelete`
removes exactly that binding, leaving everything else in order. -/
theorem alistDelete_splits {α : Type} (c : List (String × α)) (k : String) (v : α)
    (h : alistGet c k = some v) :
    ∃ pre post, c = pre ++ (k, v) :: post ∧ (∀ p ∈ pre, p.1 ≠ k) ∧
      alistDelete c k = pre ++ post := by
  induction c with
  | nil => simp [alistGet] at h
  | cons hd tl ih =>
    obtain ⟨k0, v0⟩ := hd
    by_cases h0 : k0 = k
    · subst h0
      simp [alistGet] at h
      subst h
      exact ⟨[], tl, by simp [alistDelete]⟩
    · simp only [alistGet, if_neg h0] at h
      obtain ⟨pre, post, hc, hpre, hdel⟩ := ih h
      refine ⟨(k0, v0) :: pre, post, by simp [hc], ?_, by simp [alistDelete, h0, hdel]⟩
      intro p hp
      rcases List.mem_cons.mp hp with h1 | h1
      · subst h1; exact h0
      · exact hpre p h1

theorem alistGet_eq_none_iff {α : Type} (c : List (String × α)) (k : String) :
    alistGet c k = none ↔ k ∉ c.map Prod.fst := by
  induction c with
  | nil => simp [alistGet]
  | cons hd tl ih =>
    obtain ⟨k0, v0⟩ := hd
    by_cases h0 : k0 = k
    · subst h0
      simp [alistGet]
    · have h2 : ¬ k = k0 := fun h => h0 h.symm
      simp [alistGet, h0, ih, h2]

theorem alistDelete_keys_sublist {α : Type} (c : List (String × α)) (k : String) :
    ((alistDelete c k).map Prod.fst).Sublist (c.map Prod.fst) := by
  induction c with
  | nil => simp [alistDelete]
  | cons hd tl ih =>
    obtain ⟨k0, v0⟩ := hd
    by_cases h0 : k0 = k
    · simp only [alistDelete, if_pos h0, List.map_cons]
      exact List.sublist_cons_self _ _
    · simp only [alistDelete, if_neg h0, List.map_cons]
      exact ih.cons₂ k0

theorem alistSet_keys_nodup {α : Type} (c : List (String × α)) (k : String) (v : α)
    (h : (c.map Prod.fst).Nodup) : ((alistSet c k v).map Prod.fst).Nodup := by
  cases hp : alistGet c k with
  | some e =>
    rw [alistSet_keeps_keys c k v (by rw [hp]; rfl)]
    exact h
  | none =>
    rw [alistSet_of_absent c k v hp]
    have hk : k ∉ c.map Prod.fst := (alistGet_eq_none_iff c k).mp hp
    simp [List.nodup_append, h, hk]

/-! ### CONFIG (src/app.js, lines 10-15) -/

/-- `CONFIG.CACHE_DURATION`: one hour in milliseconds. -/
def CACHE_DURATION : Nat := 3600000

/-- `CONFIG.MAX_CACHE_SIZE`. -/
def MAX_CACHE_SIZE : Nat := 50

/-! ### CacheManager (src/app.js, lines 82-127) -/

/-- One stored cache item: `{ data, timestamp }` as built by
`CacheManager.set`. -/
structure CacheEntry where
  data : JSValue
  timestamp : Nat

/-- `CacheManager.cache`: a JavaScript `Map` in insertion order. -/
abbrev Cache := List (String × CacheEntry)

namespace CacheManager

/-- `CacheManager.get(key)` at clock `now`: returns `null` when the item is
absent; deletes the item and returns `null` when
`now - item.timestamp > CONFIG.CACHE_DURATION`; otherwise returns
`item.data` and leaves the map untouched. The returned pair is
(JS return value, map afterwards). -/
def get (now : Nat) (c : Cache) (key : String) : JSValue × Cache :=
  match alistGet c key with
  | none => (.null, c)
  | some item =>
    if now - item.timestamp > CACHE_DURATION then (.null, alistDelete c key)
    else (item.data, c)

/-- `CacheManager.set(key, data)` at clock `now`: when
`this.cache.size >= CONFIG.MAX_CACHE_SIZE`, delete the first key in
iteration order (on an empty map `keys().next().value` is `undefined`
and the delete is a no-op); then `Map.set` the new
`{ data, timestamp: now }` item. -/
def set (now : Nat) (c : Cache) (key : String) (data : JSValue) : Cache :=
  let c1 :=
    if MAX_CACHE_SIZE ≤ c.length then
      match c with
      | [] => c
      | (k0, _) :: _ => alistDelete c k0
    else c
  alistSet c1 key ⟨data, now⟩

/-- `CacheManager.clear()`. -/
def clear (_c : Cache) : Cache := []

end CacheManager

/-! ### APIService.fetchWord (src/app.js, lines 138-166) -/

/-- What the upstream fetch does for one request, as `fetchWord` observes
it: a response with `response.ok` whose body decodes to `body`; a 404; a
non-ok, non-404 status; a thrown error whose message contains
`Failed to fetch`; or any other thrown error. -/
inductive UpstreamResult where
  | success (body : JSValue)
  | notFound
  | httpError
  | failedToFetch
  | otherThrow

/-- The typed errors `fetchWord` can throw, identified by the message the
code attaches: word-not-found (404), network-error (other non-ok status),
unable-to-connect (rewritten from a thrown `Failed to fetch`), or a
rethrown foreign error. -/
inductive AppError where
  | wordNotFound
  | networkError
  | unableToConnect
  | other
deriving DecidableEq

/-- The observable outcome of one `fetchWord` call: the value returned or
error thrown, the `CacheManager` map afterwards, and how many network
requests `fetch` received during the call. -/
structure FetchOutcome where
  result : Except AppError JSValue
  cache : Cache
  networkCalls : Nat

/-- `APIService.fetchWord(word)` at clock `now` against upstream oracle
`upstream`, starting from cache `c`. The fast path tests the truthiness
of `CacheManager.get`'s return value (`if (cachedData)`). On a miss it
issues exactly one `fetch`; on success it stores the decoded body via
`CacheManager.set` before returning, on failure it throws the matching
typed error and performs no `set`. -/
def fetchWord (now : Nat) (upstream : UpstreamResult) (c : Cache) (word : String) :
    FetchOutcome :=
  let r := CacheManager.get now c word
  if truthy r.1 then
    { result := .ok r.1, cache := r.2, networkCalls := 0 }
  else
    match upstream with
    | .success body =>
        { result := .ok body, cache := CacheManager.set now r.2 word body,
          networkCalls := 1 }
    | .notFound => { result := .error .wordNotFound, cache := r.2, networkCalls := 1 }
    | .httpError => { result := .error .networkError, cache := r.2, networkCalls := 1 }
    | .failedToFetch =>
        { result := .error .unableToConnect, cache := r.2, networkCalls := 1 }
    | .otherThrow => { result := .error .other, cache := r.2, networkCalls := 1 }

/-! ### Service worker (service-worker source in the repository) -/

/-- A `Response` as the service worker observes it: status, status text and
decoded body. -/
structure SWResponse where
  status : Nat
  statusText : String
  body : JSValue

/-- One named cache of the browser Cache Storage API, keyed by request URL. -/
abbrev Store := List (String × SWResponse)

/-- Cache Storage: the `dictionary-app-v1` static cache and the
`dictionary-runtime-v1` runtime cache (in creation order: statics first). -/
structure SWCaches where
  statics : Store
  runtime : Store

/-- What one `fetch(request)` call does: resolve with a response, or throw. -/
inductive NetResult where
  | resp (r : SWResponse)
  | throws

/-- `caches.match(request)`: searches the caches in creation order, the
static cache before the runtime cache. -/
def cachesMatch (cs : SWCaches) (k : String) : Option SWResponse :=
  match alistGet cs.statics k with
  | some r => some r
  | none => alistGet cs.runtime k

/-- The synthesized offline response of `networkFirstStrategy`:
`status: 503`, `statusText: Service Unavailable`, JSON body with `error`
and `message` fields. -/
def offlineResponse : SWResponse :=
  { status := 503
    statusText := "Service Unavailable"
    body := .obj [("error", .str "Offline"),
                  ("message", .str "You are currently offline. Please check your internet connection.")] }

/-- `networkFirstStrategy(request)` with network oracle `net`: try the
network; cache a status-200 response into the runtime cache and return it;
when `fetch` throws, fall back to `caches.match`, and when that also
misses, return (never throw) the synthesized 503 offline response. The
`Except` layer records whether the call rejects; every path is `.ok`. -/
def networkFirstStrategy (net : NetResult) (cs : SWCaches) (k : String) :
    Except Unit SWResponse × SWCaches :=
  match net with
  | .resp r =>
      if r.status = 200 then (.ok r, ⟨cs.statics, alistSet cs.runtime k r⟩)
      else (.ok r, cs)
  | .throws =>
      match cachesMatch cs k with
      | some r => (.ok r, cs)
      | none => (.ok offlineResponse, cs)

/-- `cacheFirstStrategy(request)` with network oracle `net`: serve from
`caches.match` on a hit; otherwise fetch, caching a status-200 response
into the static cache; when the fetch throws, the catch block returns
`caches.match(index page)` — which is `undefined` (`none`) when the
baseline page was never stored. Every path resolves (`.ok`). -/
def cacheFirstStrategy (net : NetResult) (cs : SWCaches) (k : String) :
    Except Unit (Option SWResponse) × SWCaches :=
  match cachesMatch cs k with
  | some r => (.ok (some r), cs)
  | none =>
      match net with
      | .resp r =>
          if r.status = 200 then (.ok (some r), ⟨alistSet cs.statics k r, cs.runtime⟩)
          else (.ok (some r), cs)
      | .throws => (.ok (cachesMatch cs "./index.html"), cs)

/-- The fixed install-time manifest `STATIC_ASSETS`. -/
def STATIC_ASSETS : List String :=
  ["./", "./index.html", "./style.css", "./app.js",
   "https://fonts.googleapis.com/css2?family=Inter:wght@300;400;500;600;700;800&family=Outfit:wght@300;400;500;600;700;800&display=swap"]

/-- `Response.ok`: status in the 2xx range. -/
def respOk (r : SWResponse) : Bool := 200 ≤ r.status && r.status < 300

/-- The fetching half of `cache.addAll`: fetch every URL; fail when any
fetch throws or yields a non-ok response. -/
def fetchAll (net : String → NetResult) : List String → Option (List (String × SWResponse))
  | [] => some []
  | u :: rest =>
      match net u with
      | .throws => none
      | .resp r =>
          if respOk r then (fetchAll net rest).map (fun l => (u, r) :: l) else none

/-- `cache.addAll(urls)` (browser Cache API): a batch operation — all URLs
are fetched and the responses stored together, or the whole call rejects
and the cache is left unchanged. -/
def addAll (net : String → NetResult) (store : Store) (urls : List String) :
    Except Unit Store :=
  match fetchAll net urls with
  | some entries => .ok (entries.foldl (fun s p => alistSet s p.1 p.2) store)
  | none => .error ()

/-- The result of the install event: whether the `waitUntil` promise chain
fulfilled (the installation step was accepted), and the caches afterwards. -/
structure InstallOutcome where
  succeeded : Bool
  caches : SWCaches

/-- The install listener: `caches.open(CACHE_NAME)` then
`cache.addAll(STATIC_ASSETS)` then `skipWaiting()`, with a final
`.catch` that only logs — so a failed `addAll` leaves the static cache
unchanged but the promise chain still fulfills. -/
def installEvent (net : String → NetResult) (cs : SWCaches) : InstallOutcome :=
  match addAll net cs.statics STATIC_ASSETS with
  | .ok s => ⟨true, ⟨s, cs.runtime⟩⟩
  | .error _ => ⟨true, cs⟩

/-! ### Operation sequences on the CacheManager -/

/-- One call into the `CacheManager` public surface. -/
inductive CacheOp where
  | getOp (now : Nat) (key : String)
  | setOp (now : Nat) (key : String) (data : JSValue)
  | clearOp

/-- The map after one `CacheManager` call. -/
def applyOp (c : Cache) : CacheOp → Cache
  | .getOp now k => (CacheManager.get now c k).2
  | .setOp now k v => CacheManager.set now c k v
  | .clearOp => CacheManager.clear c

/-- The map after a whole call sequence, starting from the fresh
`new Map()`. -/
def runOps (ops : List CacheOp) : Cache := ops.foldl applyOp []

/-! ### Basic lemmas about the CacheManager operations -/

theorem set_alistGet_self (now : Nat) (c : Cache) (k : String) (v : JSValue) :
    alistGet (CacheManager.set now c k v) k = some ⟨v, now⟩ := by
  unfold CacheManager.set
  exact alistGet_alistSet_self _ _ _

theorem get_of_absent (now : Nat) (c : Cache) (k : String)
    (h : alistGet c k = none) : CacheManager.get now c k = (.null, c) := by
  unfold CacheManager.get
  rw [h]

theorem get_of_valid (now : Nat) (c : Cache) (k : String) (e : CacheEntry)
    (h : alistGet c k = some e) (hv : now - e.timestamp ≤ CACHE_DURATION) :
    CacheManager.get now c k = (e.data, c) := by
  unfold CacheManager.get
  rw [h]
  show (if CACHE_DURATION < now - e.timestamp then ((.null : JSValue), alistDelete c k)
        else (e.data, c)) = (e.data, c)
  rw [if_neg (Nat.not_lt.mpr hv)]

theorem get_of_expired (now : Nat) (c : Cache) (k : String) (e : CacheEntry)
    (h : alistGet c k = some e) (hx : CACHE_DURATION < now - e.timestamp) :
    CacheManager.get now c k = (.null, alistDelete c k) := by
  unfold CacheManager.get
  rw [h]
  show (if CACHE_DURATION < now - e.timestamp then ((.null : JSValue), alistDelete c k)
        else (e.data, c)) = (.null, alistDelete c k)
  rw [if_pos hx]

/-- The map `CacheManager.get` leaves behind is never longer than the
input map. -/
theorem get_snd_length_le (now : Nat) (c : Cache) (k : String) :
    (CacheManager.get now c k).2.length ≤ c.length := by
  unfold CacheManager.get
  cases h : alistGet c k with
  | none => simp
  | some e =>
    by_cases hx : CACHE_DURATION < now - e.timestamp
    · simpa [hx] using alistDelete_length_le c k
    · simp [hx]

/-- `CacheManager.set` keeps the map within `MAX_CACHE_SIZE`. -/
theorem set_length_le (now : Nat) (c : Cache) (k : String) (v : JSValue)
    (h : c.length ≤ MAX_CACHE_SIZE) :
    (CacheManager.set now c k v).length ≤ MAX_CACHE_SIZE := by
  unfold CacheManager.set
  by_cases hfull : MAX_CACHE_SIZE ≤ c.length
  · cases c with
    | nil =>
      have := alistSet_length_le ([] : Cache) k ⟨v, now⟩
      simp only [if_pos hfull]
      simp only [List.length_nil] at this ⊢
      unfold MAX_CACHE_SIZE
      omega
    | cons hd tl =>
      obtain ⟨k0, e0⟩ := hd
      simp only [if_pos hfull]
      have hdel : alistDelete ((k0, e0) :: tl) k0 = tl := by simp [alistDelete]
      rw [hdel]
      have hset := alistSet_length_le tl k ⟨v, now⟩
      simp only [List.length_cons] at h
      omega
  · simp only [if_neg hfull]
    have hset := alistSet_length_le c k ⟨v, now⟩
    omega

theorem applyOp_length_le (c : Cache) (op : CacheOp)
    (h : c.length ≤ MAX_CACHE_SIZE) : (applyOp c op).length ≤ MAX_CACHE_SIZE := by
  cases op with
  | getOp now k => exact le_trans (get_snd_length_le now c k) h
  | setOp now k v => exact set_length_le now c k v h
  | clearOp => simp [applyOp, CacheManager.clear]

theorem runOps_length_le (ops : List CacheOp) :
    (runOps ops).length ≤ MAX_CACHE_SIZE := by
  have main : ∀ (l : List CacheOp) (c : Cache), c.length ≤ MAX_CACHE_SIZE →
      (l.foldl applyOp c).length ≤ MAX_CACHE_SIZE := by
    intro l
    induction l with
    | nil => intro c hc; simpa using hc
    | cons op rest ih =>
      intro c hc
      exact ih (applyOp c op) (applyOp_length_le c op hc)
  exact main ops [] (by simp [MAX_CACHE_SIZE])

/-- Inserting a fresh key into a full map evicts exactly the head of the
insertion order and appends the fresh binding at the tail. -/
theorem set_full_fresh_evicts_head (now : Nat) (c : Cache) (k : String) (v : JSValue)
    (hfull : c.length = MAX_CACHE_SIZE) (hfresh : alistGet c k = none) :
    CacheManager.set now c k v = c.tail ++ [(k, ⟨v, now⟩)] := by
  unfold CacheManager.set
  cases c with
  | nil => simp [MAX_CACHE_SIZE] at hfull
  | cons hd tl =>
    obtain ⟨k0, e0⟩ := hd
    have hge : MAX_CACHE_SIZE ≤ ((k0, e0) :: tl).length := le_of_eq hfull.symm
    simp only [if_pos hge]
    have hdel : alistDelete ((k0, e0) :: tl) k0 = tl := by simp [alistDelete]
    rw [hdel]
    have hfresh2 : alistGet tl k = none := by
      by_cases h0 : k0 = k
      · simp [alistGet, h0] at hfresh
      · simpa [alistGet, h0] using hfresh
    rw [alistSet_of_absent tl k ⟨v, now⟩ hfresh2]
    rfl

/-! ### Key uniqueness: the `Map` invariant holds for every reachable cache -/

theorem get_keys_nodup (now : Nat) (c : Cache) (k : String)
    (h : (c.map Prod.fst).Nodup) :
    ((CacheManager.get now c k).2.map Prod.fst).Nodup := by
  unfold CacheManager.get
  cases hp : alistGet c k with
  | none => simpa using h
  | some e =>
    by_cases hx : CACHE_DURATION < now - e.timestamp
    · simpa [hx] using List.Nodup.sublist (alistDelete_keys_sublist c k) h
    · simpa [hx] using h

theorem set_keys_nodup (now : Nat) (c : Cache) (k : String) (v : JSValue)
    (h : (c.map Prod.fst).Nodup) :
    ((CacheManager.set now c k v).map Prod.fst).Nodup := by
  unfold CacheManager.set
  by_cases hfull : MAX_CACHE_SIZE ≤ c.length
  · cases c with
    | nil =>
      simp only [if_pos hfull]
      exact alistSet_keys_nodup _ k ⟨v, now⟩ h
    | cons hd tl =>
      obtain ⟨k0, e0⟩ := hd
      simp only [if_pos hfull]
      exact alistSet_keys_nodup _ k ⟨v, now⟩
        (List.Nodup.sublist (alistDelete_keys_sublist ((k0, e0) :: tl) k0) h)
  · simp only [if_neg hfull]
    exact alistSet_keys_nodup c k ⟨v, now⟩ h

theorem runOps_keys_nodup (ops : List CacheOp) :
    ((runOps ops).map Prod.fst).Nodup := by
  have main : ∀ (l : List CacheOp) (c : Cache), (c.map Prod.fst).Nodup →
      ((l.foldl applyOp c).map Prod.fst).Nodup := by
    intro l
    induction l with
    | nil => intro c hc; simpa using hc
    | cons op rest ih =>
      intro c hc
      apply ih
      cases op with
      | getOp now k => exact get_keys_nodup now c k hc
      | setOp now k v => exact set_keys_nodup now c k v hc
      | clearOp => simp [applyOp, CacheManager.clear]
  exact main ops [] (by simp)

/-- The typed error `fetchWord` throws for each failing upstream outcome
(unused in the `success` case). -/
def upstreamError : UpstreamResult → AppError
  | .success _ => .other
  | .notFound => .wordNotFound
  | .httpError => .networkError
  | .failedToFetch => .unableToConnect
  | .otherThrow => .other

theorem fetchWord_of_truthy (now : Nat) (up : UpstreamResult) (c : Cache) (k : String)
    (h : truthy (CacheManager.get now c k).1 = true) :
    fetchWord now up c k =
      ⟨.ok (CacheManager.get now c k).1, (CacheManager.get now c k).2, 0⟩ := by
  simp only [fetchWord]
  rw [if_pos h]

theorem fetchWord_miss_success (now : Nat) (c : Cache) (k : String) (b : JSValue)
    (h : truthy (CacheManager.get now c k).1 = false) :
    fetchWord now (.success b) c k =
      ⟨.ok b, CacheManager.set now (CacheManager.get now c k).2 k b, 1⟩ := by
  simp only [fetchWord]
  rw [if_neg (by simp [h])]

theorem fetchWord_miss_fail (now : Nat) (c : Cache) (k : String) (up : UpstreamResult)
    (h : truthy (CacheManager.get now c k).1 = false)
    (hfail : ∀ b, up ≠ .success b) :
    fetchWord now up c k =
      ⟨.error (upstreamError up), (CacheManager.get now c k).2, 1⟩ := by
  cases up with
  | success b => exact absurd rfl (hfail b)
  | notFound =>
    simp only [fetchWord, upstreamError]
    rw [if_neg (by simp [h])]
  | httpError =>
    simp only [fetchWord, upstreamError]
    rw [if_neg (by simp [h])]
  | failedToFetch =>
    simp only [fetchWord, upstreamError]
    rw [if_neg (by simp [h])]
  | otherThrow =>
    simp only [fetchWord, upstreamError]
    rw [if_neg (by simp [h])]

theorem fetchWord_miss_networkCalls (now : Nat) (up : UpstreamResult) (c : Cache)
    (k : String) (h : truthy (CacheManager.get now c k).1 = false) :
    (fetchWord now up c k).networkCalls = 1 := by
  cases up with
  | success b => rw [fetchWord_miss_success now c k b h]
  | notFound =>
    rw [fetchWord_miss_fail now c k .notFound h (fun b hb => UpstreamResult.noConfusion hb)]
  | httpError =>
    rw [fetchWord_miss_fail now c k .httpError h (fun b hb => UpstreamResult.noConfusion hb)]
  | failedToFetch =>
    rw [fetchWord_miss_fail now c k .failedToFetch h (fun b hb => UpstreamResult.noConfusion hb)]
  | otherThrow =>
    rw [fetchWord_miss_fail now c k .otherThrow h (fun b hb => UpstreamResult.noConfusion hb)]

/-! ### Lemmas for the install batch -/

theorem alistSet_isSome_preserved {α : Type} (s : List (String × α)) (k u : String) (v : α)
    (h : (alistGet s u).isSome = true) : (alistGet (alistSet s k v) u).isSome = true := by
  by_cases hk : u = k
  · subst hk
    rw [alistGet_alistSet_self]
    rfl
  · rw [alistGet_alistSet_ne s k u v hk]
    exact h

theorem foldl_alistSet_mem {α : Type} (entries : List (String × α)) :
    ∀ (store : List (String × α)) (u : String),
      (u ∈ entries.map Prod.fst ∨ (alistGet store u).isSome = true) →
      (alistGet (entries.foldl (fun s p => alistSet s p.1 p.2) store) u).isSome = true := by
  induction entries with
  | nil =>
    intro store u h
    rcases h with h | h
    · simp at h
    · simpa using h
  | cons p rest ih =>
    intro store u h
    obtain ⟨pk, pv⟩ := p
    simp only [List.foldl_cons]
    apply ih
    rcases h with h | h
    · simp only [List.map_cons, List.mem_cons] at h
      rcases h with h | h
      · right
        subst h
        rw [alistGet_alistSet_self]
        rfl
      · left
        exact h
    · right
      exact alistSet_isSome_preserved store pk u pv h

theorem fetchAll_keys (net : String → NetResult) :
    ∀ (urls : List String) (entries : List (String × SWResponse)),
      fetchAll net urls = some entries → entries.map Prod.fst = urls := by
  intro urls
  induction urls with
  | nil =>
    intro entries h
    simp only [fetchAll, Option.some.injEq] at h
    subst h
    rfl
  | cons u rest ih =>
    intro entries h
    simp only [fetchAll] at h
    cases hn : net u with
    | throws => rw [hn] at h; simp at h
    | resp r =>
      rw [hn] at h
      dsimp only at h
      by_cases hok : respOk r = true
      · rw [if_pos hok] at h
        cases hf : fetchAll net rest with
        | none => rw [hf] at h; simp at h
        | some es =>
          rw [hf] at h
          have h2 : (u, r) :: es = entries := by simpa using h
          subst h2
          simp [ih es hf]
      · rw [if_neg hok] at h
        simp at h

/-! ### Sample objects for concrete instances -/

/-- A full cache: `MAX_CACHE_SIZE` distinct keys `0` .. `49` inserted in
order, all stored at time 0. -/
def sampleMaxCache : Cache :=
  (List.range MAX_CACHE_SIZE).map (fun i => (Nat.repr i, ⟨.num (Int.ofNat i), 0⟩))

/-- A sample successful response. -/
def sampleResponse : SWResponse := ⟨200, "OK", .arr []⟩

/-! ### Claim C2 -/

/-- Claim C2: for all keys `k` and values `v`, `CacheManager.get k`
performed after `CacheManager.set k v`, with the clock advanced by at
most `CACHE_DURATION` (3,600,000 ms) since the set, returns exactly `v`
(leaving the map unchanged); and an entry is valid precisely while
`now - storedAt ≤ CACHE_DURATION`: within that bound `get` returns the
stored data and mutates nothing, past it the entry is treated as absent
and removed. -/
theorem claim_C2_get_after_set_within_ttl
    (c : Cache) (k : String) (v : JSValue) (now0 now1 : Nat)
    (httl : now1 - now0 ≤ CACHE_DURATION) :
    CacheManager.get now1 (CacheManager.set now0 c k v) k
        = (v, CacheManager.set now0 c k v)
    ∧ (∀ (c2 : Cache) (e : CacheEntry) (now : Nat), alistGet c2 k = some e →
        (now - e.timestamp ≤ CACHE_DURATION → CacheManager.get now c2 k = (e.data, c2))
        ∧ (CACHE_DURATION < now - e.timestamp →
            CacheManager.get now c2 k = (JSValue.null, alistDelete c2 k))) := by
  constructor
  · exact get_of_valid now1 _ k ⟨v, now0⟩ (set_alistGet_self now0 c k v) httl
  · intro c2 e now hpres
    exact ⟨fun hv => get_of_valid now c2 k e hpres hv,
           fun hx => get_of_expired now c2 k e hpres hx⟩

/-- Concrete instance of claim C2: key `a`, value `7`, stored at clock 0
and read back at clock 100. -/
theorem claim_C2_witness :
    CacheManager.get 100 (CacheManager.set 0 [] "a" (JSValue.num 7)) "a"
      = (JSValue.num 7, CacheManager.set 0 [] "a" (JSValue.num 7)) :=
  (claim_C2_get_after_set_within_ttl [] "a" (JSValue.num 7) 0 100 (by decide)).1

/-! ### Claim C6 -/

/-- Claim C6: `CacheManager.get` on a present-but-expired entry returns
absent (`null`) and removes exactly that one entry — the cache splits as
`pre ++ entry :: post` and becomes `pre ++ post` — while `get` on a
genuinely absent key returns absent and mutates nothing; both outcomes
are ordinary return values, not errors. -/
theorem claim_C6_expired_purge_absent_frame
    (now : Nat) (c : Cache) (k : String) (e : CacheEntry)
    (hpres : alistGet c k = some e)
    (hexp : CACHE_DURATION < now - e.timestamp) :
    (CacheManager.get now c k).1 = JSValue.null
    ∧ (∃ pre post, c = pre ++ (k, e) :: post ∧ (∀ p ∈ pre, p.1 ≠ k)
        ∧ (CacheManager.get now c k).2 = pre ++ post)
    ∧ (∀ (c2 : Cache) (k2 : String) (now2 : Nat), alistGet c2 k2 = none →
        CacheManager.get now2 c2 k2 = (JSValue.null, c2)) := by
  have hget := get_of_expired now c k e hpres hexp
  refine ⟨by rw [hget], ?_, fun c2 k2 now2 h2 => get_of_absent now2 c2 k2 h2⟩
  obtain ⟨pre, post, hc, hpre, hdel⟩ := alistDelete_splits c k e hpres
  refine ⟨pre, post, hc, hpre, ?_⟩
  rw [hget]
  exact hdel

/-- Concrete instance of claim C6: an entry stored at clock 0 read at
clock 3,600,001 is reported absent. -/
theorem claim_C6_witness :
    (CacheManager.get 3600001 [("a", ⟨JSValue.num 1, 0⟩)] "a").1 = JSValue.null :=
  (claim_C6_expired_purge_absent_frame 3600001 [("a", ⟨JSValue.num 1, 0⟩)] "a"
    ⟨JSValue.num 1, 0⟩ rfl (by decide)).1

/-! ### Claim C3 -/

/-- Claim C3: starting from the fresh map, no sequence of get/set/clear
calls ever brings the cache above `MAX_CACHE_SIZE` entries; and when
inserting a fresh key into a full cache, exactly the single first entry
in insertion order (pure FIFO, independent of access recency) is evicted
before the insertion, the remaining entries surviving in order. -/
theorem claim_C3_capacity_fifo (ops : List CacheOp) :
    (runOps ops).length ≤ MAX_CACHE_SIZE
    ∧ (∀ (now : Nat) (c : Cache) (k : String) (v : JSValue),
        c.length = MAX_CACHE_SIZE → alistGet c k = none →
        CacheManager.set now c k v = c.tail ++ [(k, ⟨v, now⟩)]) :=
  ⟨runOps_length_le ops,
   fun now c k v hfull hfresh => set_full_fresh_evicts_head now c k v hfull hfresh⟩

/-- Concrete instance of claim C3: inserting a 51st distinct key into the
full 50-entry cache evicts exactly the first-inserted key. -/
theorem claim_C3_witness :
    CacheManager.set 7 sampleMaxCache "new" (JSValue.num 99)
      = sampleMaxCache.tail ++ [("new", ⟨JSValue.num 99, 7⟩)] :=
  (claim_C3_capacity_fifo []).2 7 sampleMaxCache "new" (JSValue.num 99) rfl rfl

/-! ### Claim C4 -/

/-- Claim C4 fails on the code: in the full 50-entry cache with keys
`0` .. `49`, re-`set`ting key `1` and then inserting the two fresh keys
`x` and `y` evicts key `1` while key `2` (inserted before the re-set)
survives — so re-`set`ting does not reset the key to newest, and a
capacity eviction does evict it ahead of keys inserted before the
re-set. -/
theorem claim_C4_counterexample :
    alistGet (CacheManager.set 3 (CacheManager.set 2
        (CacheManager.set 1 sampleMaxCache "1" (JSValue.num 9))
        "x" (JSValue.num 9)) "y" (JSValue.num 9)) "1" = none
    ∧ alistGet (CacheManager.set 3 (CacheManager.set 2
        (CacheManager.set 1 sampleMaxCache "1" (JSValue.num 9))
        "x" (JSValue.num 9)) "y" (JSValue.num 9)) "2"
        = some ⟨JSValue.num 2, 0⟩ :=
  ⟨rfl, rfl⟩

/-- Claim C4 (amended): re-`set`ting an existing key `k` refreshes its
stored value and timestamp but does not unconditionally move it to
newest: below capacity, `Map.set` updates the entry in place and `k`
keeps its original position in the insertion order; at capacity the set
first evicts the current first-inserted key — when that first key is `k`
itself, `k` alone is deleted and re-appended as newest, and otherwise
`k` again keeps its original position among the surviving keys. A
re-set key therefore remains evictable by its original insertion
position. The key-uniqueness hypothesis is the `Map` invariant, which
`runOps_keys_nodup` establishes for every reachable cache. -/
theorem claim_C4_amended_reset_not_newest
    (now : Nat) (c : Cache) (k : String) (v : JSValue)
    (hpres : (alistGet c k).isSome = true)
    (hnodup : (c.map Prod.fst).Nodup) :
    alistGet (CacheManager.set now c k v) k = some ⟨v, now⟩
    ∧ (c.length < MAX_CACHE_SIZE →
        CacheManager.set now c k v = alistSet c k ⟨v, now⟩
        ∧ (CacheManager.set now c k v).map Prod.fst = c.map Prod.fst)
    ∧ (∀ k0 e0 rest, c = (k0, e0) :: rest → MAX_CACHE_SIZE ≤ c.length →
        (k0 = k → CacheManager.set now c k v = rest ++ [(k, ⟨v, now⟩)])
        ∧ (k0 ≠ k →
            CacheManager.set now c k v = alistSet rest k ⟨v, now⟩
            ∧ (CacheManager.set now c k v).map Prod.fst = rest.map Prod.fst)) := by
  refine ⟨set_alistGet_self now c k v, ?_, ?_⟩
  · intro hroom
    have hnot : ¬ MAX_CACHE_SIZE ≤ c.length := Nat.not_le.mpr hroom
    have hset : CacheManager.set now c k v = alistSet c k ⟨v, now⟩ := by
      unfold CacheManager.set
      simp only [if_neg hnot]
    exact ⟨hset, by rw [hset]; exact alistSet_keeps_keys c k ⟨v, now⟩ hpres⟩
  · intro k0 e0 rest hc hfull
    subst hc
    have hdel : alistDelete ((k0, e0) :: rest) k0 = rest := by simp [alistDelete]
    have hset : CacheManager.set now ((k0, e0) :: rest) k v
        = alistSet rest k ⟨v, now⟩ := by
      unfold CacheManager.set
      simp only [if_pos hfull, hdel]
    constructor
    · intro hk
      subst hk
      have hk0 : k0 ∉ rest.map Prod.fst := by
        simp only [List.map_cons, List.nodup_cons] at hnodup
        exact hnodup.1
      have habs : alistGet rest k0 = none := (alistGet_eq_none_iff rest k0).mpr hk0
      rw [hset, alistSet_of_absent rest k0 ⟨v, now⟩ habs]
    · intro hk
      have hpres2 : (alistGet rest k).isSome = true := by
        simp only [alistGet, if_neg hk] at hpres
        exact hpres
      exact ⟨hset, by rw [hset]; exact alistSet_keeps_keys rest k ⟨v, now⟩ hpres2⟩

/-- Concrete instance of amended claim C4: re-`set`ting key `a` in a
two-entry cache below capacity leaves it in first position with a fresh
timestamp. -/
theorem claim_C4_witness :
    CacheManager.set 5 [("a", ⟨JSValue.num 1, 0⟩), ("b", ⟨JSValue.num 2, 0⟩)]
        "a" (JSValue.num 3)
      = alistSet [("a", ⟨JSValue.num 1, 0⟩), ("b", ⟨JSValue.num 2, 0⟩)]
        "a" ⟨JSValue.num 3, 5⟩ :=
  (((claim_C4_amended_reset_not_newest 5
    [("a", ⟨JSValue.num 1, 0⟩), ("b", ⟨JSValue.num 2, 0⟩)]
    "a" (JSValue.num 3) rfl (by decide)).2.1) (by decide)).1

/-! ### Claim C1 -/

/-- Claim C1 fails on the code as universally stated: the key `w` holds a
valid (unexpired) cache entry whose value is the falsy `false`, yet
`fetchWord` issues a network request (one call, not zero) and surfaces
the upstream outcome instead of the cached value. -/
theorem claim_C1_counterexample :
    alistGet ([("w", ⟨JSValue.bool false, 0⟩)] : Cache) "w"
        = some ⟨JSValue.bool false, 0⟩
    ∧ (0 : Nat) - 0 ≤ CACHE_DURATION
    ∧ (fetchWord 0 .notFound [("w", ⟨JSValue.bool false, 0⟩)] "w").networkCalls = 1
    ∧ (fetchWord 0 .notFound [("w", ⟨JSValue.bool false, 0⟩)] "w").result
        = Except.error AppError.wordNotFound :=
  ⟨rfl, by decide, rfl, rfl⟩

/-- Claim C1 (amended): for every key whose valid (unexpired) cache entry
stores a truthy value, `fetchWord` returns the cached value and issues no
network request; consequently two `fetchWord` calls for the same word
within `CACHE_DURATION`, the first of which fetches a truthy payload over
the network, trigger exactly one network call in total, the second served
entirely from the cache. -/
theorem claim_C1_amended_truthy_hit_no_network
    (now : Nat) (up : UpstreamResult) (c : Cache) (k : String) (e : CacheEntry)
    (hpres : alistGet c k = some e)
    (hvalid : now - e.timestamp ≤ CACHE_DURATION)
    (htruthy : truthy e.data = true) :
    fetchWord now up c k = ⟨.ok e.data, c, 0⟩
    ∧ (∀ (now0 now1 : Nat) (v : JSValue) (c0 : Cache) (w : String) (up1 : UpstreamResult),
        truthy (CacheManager.get now0 c0 w).1 = false → truthy v = true →
        now1 - now0 ≤ CACHE_DURATION →
        (fetchWord now0 (.success v) c0 w).networkCalls = 1
        ∧ (fetchWord now1 up1 (fetchWord now0 (.success v) c0 w).cache w).networkCalls = 0
        ∧ (fetchWord now1 up1 (fetchWord now0 (.success v) c0 w).cache w).result
            = .ok v) := by
  have hget := get_of_valid now c k e hpres hvalid
  constructor
  · have h1 : truthy (CacheManager.get now c k).1 = true := by rw [hget]; exact htruthy
    rw [fetchWord_of_truthy now up c k h1, hget]
  · intro now0 now1 v c0 w up1 hmiss htv httl
    have hfirst := fetchWord_miss_success now0 c0 w v hmiss
    have hcache1 : (fetchWord now0 (.success v) c0 w).cache
        = CacheManager.set now0 (CacheManager.get now0 c0 w).2 w v := by rw [hfirst]
    have hpres1 : alistGet (fetchWord now0 (.success v) c0 w).cache w
        = some ⟨v, now0⟩ := by
      rw [hcache1]
      exact set_alistGet_self now0 _ w v
    have hget1 := get_of_valid now1 _ w ⟨v, now0⟩ hpres1 httl
    have h1 : truthy (CacheManager.get now1 (fetchWord now0 (.success v) c0 w).cache w).1
        = true := by rw [hget1]; exact htv
    refine ⟨by rw [hfirst], ?_, ?_⟩
    · rw [fetchWord_of_truthy now1 up1 _ w h1]
    · rw [fetchWord_of_truthy now1 up1 _ w h1, hget1]

/-- Concrete instance of amended claim C1: a valid truthy entry for `w`
is returned with zero network calls. -/
theorem claim_C1_witness :
    fetchWord 0 .notFound [("w", ⟨JSValue.num 5, 0⟩)] "w"
      = ⟨.ok (JSValue.num 5), [("w", ⟨JSValue.num 5, 0⟩)], 0⟩ :=
  (claim_C1_amended_truthy_hit_no_network 0 .notFound
    [("w", ⟨JSValue.num 5, 0⟩)] "w" ⟨JSValue.num 5, 0⟩ rfl (by decide) rfl).1

/-! ### Claim C10 -/

/-- Claim C10: `fetchWord`'s cache-hit fast path is conditioned on the
truthiness of the cached value, not on entry presence — for a valid
entry holding a falsy value, one network request is issued (the lookup
is treated as a miss), while the no-network-on-hit guarantee does hold
for truthy cached payloads. -/
theorem claim_C10_falsy_hit_refetches
    (now : Nat) (up : UpstreamResult) (c : Cache) (k : String) (e : CacheEntry)
    (hpres : alistGet c k = some e)
    (hvalid : now - e.timestamp ≤ CACHE_DURATION)
    (hfalsy : truthy e.data = false) :
    (fetchWord now up c k).networkCalls = 1
    ∧ (∀ (c2 : Cache) (e2 : CacheEntry) (up2 : UpstreamResult) (now2 : Nat),
        alistGet c2 k = some e2 → now2 - e2.timestamp ≤ CACHE_DURATION →
        truthy e2.data = true → (fetchWord now2 up2 c2 k).networkCalls = 0) := by
  have hget := get_of_valid now c k e hpres hvalid
  constructor
  · have h1 : truthy (CacheManager.get now c k).1 = false := by rw [hget]; exact hfalsy
    exact fetchWord_miss_networkCalls now up c k h1
  · intro c2 e2 up2 now2 hp2 hv2 ht2
    have hget2 := get_of_valid now2 c2 k e2 hp2 hv2
    have h2 : truthy (CacheManager.get now2 c2 k).1 = true := by rw [hget2]; exact ht2
    rw [fetchWord_of_truthy now2 up2 c2 k h2]

/-- Concrete instance of claim C10: a valid entry storing `0` triggers a
network request. -/
theorem claim_C10_witness :
    (fetchWord 0 .notFound [("w", ⟨JSValue.num 0, 0⟩)] "w").networkCalls = 1 :=
  (claim_C10_falsy_hit_refetches 0 .notFound [("w", ⟨JSValue.num 0, 0⟩)] "w"
    ⟨JSValue.num 0, 0⟩ rfl (by decide) rfl).1

/-! ### Claim C5 -/

/-- Claim C5 fails on the code as stated: with an expired entry for the
key present before the call, a failing `fetchWord` leaves the cache
without that entry — the entry state for the key is not exactly what it
was before the call, because the initial cache lookup purged it. -/
theorem claim_C5_counterexample :
    alistGet ([("w", ⟨JSValue.arr [], 0⟩)] : Cache) "w" = some ⟨JSValue.arr [], 0⟩
    ∧ (fetchWord 3600001 .notFound [("w", ⟨JSValue.arr [], 0⟩)] "w").result
        = Except.error AppError.wordNotFound
    ∧ (fetchWord 3600001 .notFound [("w", ⟨JSValue.arr [], 0⟩)] "w").cache = []
    ∧ ([] : Cache) ≠ [("w", ⟨JSValue.arr [], 0⟩)] :=
  ⟨rfl, rfl, rfl, fun hcontra => List.noConfusion hcontra⟩

/-- Claim C5 (amended): when the upstream fetch fails, `fetchWord` throws
the matching typed error (`NotFoundError` for a not-found status,
network/connect errors otherwise) and performs no cache write: the cache
afterwards is exactly the cache left by the initial `CacheManager.get`
lookup — identical to the pre-call cache whenever the key's entry was
absent or still valid, the sole exception being that an already-expired
entry for the key is purged by that lookup. -/
theorem claim_C5_amended_failure_frame
    (now : Nat) (c : Cache) (k : String) (up : UpstreamResult)
    (hmiss : truthy (CacheManager.get now c k).1 = false)
    (hfail : ∀ b, up ≠ UpstreamResult.success b) :
    (fetchWord now up c k).result = Except.error (upstreamError up)
    ∧ (fetchWord now up c k).networkCalls = 1
    ∧ (fetchWord now up c k).cache = (CacheManager.get now c k).2
    ∧ ((∀ e, alistGet c k = some e → now - e.timestamp ≤ CACHE_DURATION) →
        (fetchWord now up c k).cache = c) := by
  have h := fetchWord_miss_fail now c k up hmiss hfail
  refine ⟨by rw [h], by rw [h], by rw [h], ?_⟩
  intro hnoexp
  rw [h]
  show (CacheManager.get now c k).2 = c
  cases hp : alistGet c k with
  | none => rw [get_of_absent now c k hp]
  | some e => rw [get_of_valid now c k e hp (hnoexp e hp)]

/-- Concrete instance of amended claim C5: a 404 for an uncached word
throws the word-not-found error and leaves the empty cache empty. -/
theorem claim_C5_witness :
    (fetchWord 0 .notFound [] "zzzxnotaword").result
        = Except.error (upstreamError .notFound)
    ∧ (fetchWord 0 .notFound [] "zzzxnotaword").cache
        = (CacheManager.get 0 [] "zzzxnotaword").2 :=
  ⟨(claim_C5_amended_failure_frame 0 [] "zzzxnotaword" .notFound rfl
      (fun _ hb => UpstreamResult.noConfusion hb)).1,
   (claim_C5_amended_failure_frame 0 [] "zzzxnotaword" .notFound rfl
      (fun _ hb => UpstreamResult.noConfusion hb)).2.2.1⟩

/-! ### Claim C7 -/

/-- Claim C7: `networkFirstStrategy` with the network failing (the fetch
throws) never propagates the raw failure — it always resolves: with the
previously stored runtime-cache response for the identical request key
when one exists (and the static cache lacks the key, as is the case for
every API-origin request), and otherwise with the synthesized structured
offline error response carrying a 503 Service Unavailable status. -/
theorem claim_C7_network_first_offline_fallback (cs : SWCaches) (k : String) :
    (∃ r, (networkFirstStrategy .throws cs k).1 = Except.ok r)
    ∧ (∀ r, alistGet cs.statics k = none → alistGet cs.runtime k = some r →
        networkFirstStrategy .throws cs k = (Except.ok r, cs))
    ∧ (cachesMatch cs k = none →
        networkFirstStrategy .throws cs k = (Except.ok offlineResponse, cs)
        ∧ offlineResponse.status = 503) := by
  refine ⟨?_, ?_, ?_⟩
  · cases h : cachesMatch cs k with
    | none => exact ⟨offlineResponse, by simp [networkFirstStrategy, h]⟩
    | some r => exact ⟨r, by simp [networkFirstStrategy, h]⟩
  · intro r hs hr
    have hm : cachesMatch cs k = some r := by simp [cachesMatch, hs, hr]
    simp [networkFirstStrategy, hm]
  · intro hm
    exact ⟨by simp [networkFirstStrategy, hm], rfl⟩

/-- Concrete instance of claim C7: with the network down, a runtime-cached
API response for the `hello` lookup URL is served. -/
theorem claim_C7_witness :
    networkFirstStrategy .throws
        ⟨[], [("https://api.dictionaryapi.dev/api/v2/entries/en/hello", sampleResponse)]⟩
        "https://api.dictionaryapi.dev/api/v2/entries/en/hello"
      = (Except.ok sampleResponse,
         ⟨[], [("https://api.dictionaryapi.dev/api/v2/entries/en/hello", sampleResponse)]⟩) :=
  (claim_C7_network_first_offline_fallback
    ⟨[], [("https://api.dictionaryapi.dev/api/v2/entries/en/hello", sampleResponse)]⟩
    "https://api.dictionaryapi.dev/api/v2/entries/en/hello").2.1 sampleResponse rfl rfl

/-! ### Claim C8 -/

/-- Claim C8 fails on the code: with an empty store and the network fetch
throwing, `cacheFirstStrategy` does not propagate the failure — the catch
block resolves with `caches.match` of the baseline page, which is absent,
so the strategy resolves with no response (`undefined`) instead of
rejecting. -/
theorem claim_C8_counterexample :
    cachesMatch ⟨[], []⟩ "./style.css" = none
    ∧ cacheFirstStrategy .throws ⟨[], []⟩ "./style.css" = (Except.ok none, ⟨[], []⟩)
    ∧ (cacheFirstStrategy .throws ⟨[], []⟩ "./style.css").1 ≠ Except.error () :=
  ⟨rfl, rfl, fun hcontra => Except.noConfusion hcontra⟩

/-- Claim C8 (amended): on a store miss with the network fetch throwing,
`cacheFirstStrategy` resolves with the previously stored baseline
`./index.html` page when one exists; when none exists it resolves with no
response (`undefined`) — the thrown failure is caught, never
propagated. -/
theorem claim_C8_amended_cache_first_fallback (cs : SWCaches) (k : String)
    (hmiss : cachesMatch cs k = none) :
    cacheFirstStrategy .throws cs k = (Except.ok (cachesMatch cs "./index.html"), cs)
    ∧ (∀ r, cachesMatch cs "./index.html" = some r →
        cacheFirstStrategy .throws cs k = (Except.ok (some r), cs)) := by
  refine ⟨by simp [cacheFirstStrategy, hmiss], ?_⟩
  intro r hr
  simp [cacheFirstStrategy, hmiss, hr]

/-- Concrete instance of amended claim C8: with the baseline page stored,
a miss plus network failure serves the baseline page. -/
theorem claim_C8_witness :
    cacheFirstStrategy .throws ⟨[("./index.html", sampleResponse)], []⟩ "./style.css"
      = (Except.ok (some sampleResponse), ⟨[("./index.html", sampleResponse)], []⟩) :=
  (claim_C8_amended_cache_first_fallback
    ⟨[("./index.html", sampleResponse)], []⟩ "./style.css" rfl).2 sampleResponse rfl

/-! ### Claim C9 -/

/-- Claim C9 fails on the code: with every manifest fetch throwing, the
install event still succeeds (the `waitUntil` chain fulfills, because the
final `.catch` only logs), leaving the static store entirely
unpopulated — a store/fetch failure during install is not fatal. -/
theorem claim_C9_counterexample :
    (installEvent (fun _ => NetResult.throws) ⟨[], []⟩).succeeded = true
    ∧ (installEvent (fun _ => NetResult.throws) ⟨[], []⟩).caches.statics = [] :=
  ⟨rfl, rfl⟩

/-- Claim C9 (amended): `cache.addAll` is atomic, so the static store is
never partially populated — after the install event it either holds an
entry for every manifest URL or is exactly unchanged — and the runtime
store is untouched; but a fetch or store failure is caught and logged, so
the install step itself always succeeds rather than failing. -/
theorem claim_C9_amended_install_atomic_but_swallowed
    (net : String → NetResult) (cs : SWCaches) :
    (installEvent net cs).succeeded = true
    ∧ (installEvent net cs).caches.runtime = cs.runtime
    ∧ ((installEvent net cs).caches.statics = cs.statics
        ∨ (∀ u ∈ STATIC_ASSETS,
            (alistGet (installEvent net cs).caches.statics u).isSome = true)) := by
  unfold installEvent
  cases h : addAll net cs.statics STATIC_ASSETS with
  | error e => exact ⟨rfl, rfl, Or.inl rfl⟩
  | ok s =>
    refine ⟨rfl, rfl, Or.inr ?_⟩
    intro u hu
    unfold addAll at h
    cases hf : fetchAll net STATIC_ASSETS with
    | none => rw [hf] at h; exact Except.noConfusion h
    | some entries =>
      rw [hf] at h
      have hs : entries.foldl (fun s p => alistSet s p.1 p.2) cs.statics = s := by
        injection h
      show (alistGet s u).isSome = true
      rw [← hs]
      apply foldl_alistSet_mem
      left
      rw [fetchAll_keys net STATIC_ASSETS entries hf]
      exact hu

/-- Concrete instance of amended claim C9: a fully failing install run is
still accepted. -/
theorem claim_C9_witness :
    (installEvent (fun _ => NetResult.throws) ⟨[("./app.js", sampleResponse)], []⟩).succeeded
        = true :=
  (claim_C9_amended_install_atomic_but_swallowed (fun _ => NetResult.throws)
    ⟨[("./app.js", sampleResponse)], []⟩).1

end DictApp
